import Mathlib

/-!
Verification of the markdown-to-HTML compiler (`renderMarkdown` and its
helpers) from the chat application repository.  The TypeScript source is
shallowly embedded over `List Char`: each regex-rewrite rule of the
inline renderer becomes an explicit scanner with JavaScript `replace`
semantics (leftmost match, resume after the match, replacer results
spliced verbatim), and the mutable placeholder map / heading list become
an explicit state record threaded through the pipeline.  Recursive
scanners take a fuel argument; every call site supplies fuel that is
provably or evidently larger than the number of scan steps (each step
consumes at least one character or line), so the fuel never runs out on
the inputs reasoned about here.
-/

namespace MDF

/-- Backslash character (code 92). -/
def bslashC : Char := Char.ofNat 92

/-- Backtick character (code 96). -/
def btickC : Char := Char.ofNat 96

/-- Double-quote character (code 34). -/
def quoteC : Char := Char.ofNat 34

/-- Apostrophe character (code 39). -/
def aposC : Char := Char.ofNat 39

/-- Opening curly brace character (code 123). -/
def lbraceC : Char := Char.ofNat 123

/-- Closing curly brace character (code 125). -/
def rbraceC : Char := Char.ofNat 125

/-- Private-use sentinel U+E000 opening a placeholder key (source line 144). -/
def phL : Char := Char.ofNat 0xE000

/-- Private-use sentinel U+E001 closing a placeholder key (source line 144). -/
def phR : Char := Char.ofNat 0xE001

/-- JavaScript regex `\s` / `String.prototype.trim` whitespace. -/
def jsSpace (c : Char) : Bool :=
  let n := c.toNat
  n == 9 || n == 10 || n == 11 || n == 12 || n == 13 || n == 32 || n == 160 ||
  n == 0x1680 || (decide (0x2000 ≤ n) && decide (n ≤ 0x200A)) ||
  n == 0x2028 || n == 0x2029 || n == 0x202F || n == 0x205F || n == 0x3000 ||
  n == 0xFEFF

/-- Decimal digit 0-9. -/
def isDigitC (c : Char) : Bool := decide (48 ≤ c.toNat) && decide (c.toNat ≤ 57)

/-- ASCII lowercase letter a-z. -/
def isLowerAZ (c : Char) : Bool := decide (97 ≤ c.toNat) && decide (c.toNat ≤ 122)

/-- ASCII uppercase letter A-Z. -/
def isUpperAZ (c : Char) : Bool := decide (65 ≤ c.toNat) && decide (c.toNat ≤ 90)

/-- ASCII letter. -/
def isAlphaC (c : Char) : Bool := isLowerAZ c || isUpperAZ c

/-- ASCII alphanumeric. -/
def isAlnumC (c : Char) : Bool := isAlphaC c || isDigitC c

/-- Regex word character `\w` = `[A-Za-z0-9_]`, used for `\b` boundaries. -/
def isWordC (c : Char) : Bool := isAlnumC c || c == '_'

/-- Lowercase hex digit `[0-9a-f]`. -/
def isHexLower (c : Char) : Bool := isDigitC c || (decide (97 ≤ c.toNat) && decide (c.toNat ≤ 102))

/-- Hex digit under the `/i` flag: `[0-9a-f]` case-insensitive. -/
def isHexAny (c : Char) : Bool :=
  isDigitC c || (decide (97 ≤ c.toNat) && decide (c.toNat ≤ 102)) ||
  (decide (65 ≤ c.toNat) && decide (c.toNat ≤ 70))

/-- Email local-part character `[A-Za-z0-9._%+-]`. -/
def isLocalC (c : Char) : Bool :=
  isAlnumC c || c == '.' || c == '_' || c == '%' || c == '+' || c == '-'

/-- Email domain character `[A-Za-z0-9.-]`. -/
def isDomC (c : Char) : Bool := isAlnumC c || c == '.' || c == '-'

/-- Emoji shortcode character `[a-z0-9_+-]` under `/i`. -/
def isEmojiC (c : Char) : Bool := isAlnumC c || c == '_' || c == '+' || c == '-'

/-- Color token character `[#a-zA-Z0-9]`. -/
def isColorC (c : Char) : Bool := isAlnumC c || c == '#'

/-- ASCII lowering, mirroring `toLowerCase` on the ASCII range (the source
only ever lowercases ASCII-relevant data: labels, color names, emoji codes,
slugs; non-ASCII letters are either filtered out downstream or compared
case-sensitively). -/
def toLowerA (c : Char) : Char :=
  if decide (65 ≤ c.toNat) && decide (c.toNat ≤ 90) then Char.ofNat (c.toNat + 32) else c

/-- Membership of a character in a list, as a Bool. -/
def hasChar (c : Char) : List Char → Bool
  | [] => false
  | a :: rest => a == c || hasChar c rest

/-- Does `p` occur as a prefix of `l`? -/
def leadMatch : List Char → List Char → Bool
  | [], _ => true
  | _ :: _, [] => false
  | a :: p, b :: l => a == b && leadMatch p l

/-- Case-insensitive (ASCII) prefix test, for `/i` regex flags. -/
def leadMatchCI : List Char → List Char → Bool
  | [], _ => true
  | _ :: _, [] => false
  | a :: p, b :: l => toLowerA a == toLowerA b && leadMatchCI p l

/-- Index of the first occurrence of `pat` in `l` (fuelled scan). -/
def findSubIdx : Nat → List Char → List Char → Option Nat
  | 0, _, _ => none
  | _ + 1, pat, [] => if leadMatch pat [] then some 0 else none
  | f + 1, pat, c :: rest =>
    if leadMatch pat (c :: rest) then some 0
    else (findSubIdx f pat rest).map (· + 1)

/-- Does `pat` occur as a substring of `l`? -/
def containsSub (pat l : List Char) : Bool := (findSubIdx (l.length + 1) pat l).isSome

/-- Count of leftmost non-overlapping occurrences of `pat` in `l` (fuelled). -/
def countSubGo : Nat → List Char → List Char → Nat
  | 0, _, _ => 0
  | _ + 1, _, [] => 0
  | f + 1, pat, c :: rest =>
    if leadMatch pat (c :: rest) then 1 + countSubGo f pat ((c :: rest).drop pat.length)
    else countSubGo f pat rest

/-- Count of leftmost non-overlapping occurrences of `pat` in `l`. -/
def countSub (pat l : List Char) : Nat := countSubGo (l.length + 1) pat l

/-- Replace every (leftmost, non-overlapping) occurrence of `pat` by `rep`:
the semantics of JavaScript `s.split(pat).join(rep)` (source lines 149-155). -/
def replaceSubGo : Nat → List Char → List Char → List Char → List Char
  | 0, _, _, l => l
  | _ + 1, _, _, [] => []
  | f + 1, pat, rep, c :: rest =>
    if leadMatch pat (c :: rest) then rep ++ replaceSubGo f pat rep ((c :: rest).drop pat.length)
    else c :: replaceSubGo f pat rep rest

/-- Replace every occurrence of `pat` by `rep` in `l`. -/
def replaceAllSub (pat rep l : List Char) : List Char := replaceSubGo (l.length + 1) pat rep l

/-- Normalization `src.replace(/\r\n?/g, "\n")` used at source lines 72, 165
and 661: every CRLF or lone CR becomes LF. -/
def normalizeNl : List Char → List Char
  | [] => []
  | '\r' :: '\n' :: rest => '\n' :: normalizeNl rest
  | '\r' :: rest => '\n' :: normalizeNl rest
  | c :: rest => c :: normalizeNl rest

/-- JavaScript `split("\n")` (an empty input yields one empty line). -/
def splitNl : List Char → List (List Char)
  | [] => [[]]
  | c :: rest =>
    if c = '\n' then [] :: splitNl rest
    else
      match splitNl rest with
      | [] => [[c]]
      | x :: xs => (c :: x) :: xs

/-- JavaScript `lines.join("\n")`. -/
def joinNl : List (List Char) → List Char
  | [] => []
  | [x] => x
  | x :: xs => x ++ '\n' :: joinNl xs

/-- JavaScript `String.prototype.trim`. -/
def trimL (l : List Char) : List Char :=
  ((l.dropWhile jsSpace).reverse.dropWhile jsSpace).reverse

/-- Replace every occurrence of the single character `t` by `rep`
(JavaScript `str.replace(/t/g, rep)` for a single-character pattern). -/
def replChar (t : Char) (rep : List Char) : List Char → List Char
  | [] => []
  | c :: rest => (if c = t then rep else [c]) ++ replChar t rep rest

/-- HTML escaping of text content (source lines 29-31): ampersand first,
then angle brackets. -/
def escapeHtml (l : List Char) : List Char :=
  replChar '>' (("&gt;").toList)
    (replChar '<' (("&lt;").toList)
      (replChar '&' (("&amp;").toList) l))

/-- HTML escaping of attribute values (source lines 33-35). -/
def escapeHtmlAttr (l : List Char) : List Char :=
  replChar quoteC (("&quot;").toList) (escapeHtml l)

/-- Undo markdown escapes of parentheses inside URLs (source lines 37-39). -/
def unescapeMdUrl : List Char → List Char
  | [] => []
  | [c] => [c]
  | c :: c2 :: rest =>
    if c = bslashC && (c2 == '(' || c2 == ')') then c2 :: unescapeMdUrl rest
    else c :: unescapeMdUrl (c2 :: rest)

/-- Scan to the matching `>` of a lazy tag pattern: returns the suffix after
the first `>` provided no `<` intervenes (regex `<[\/!]*?[^<>]*?>`). -/
def tagEnd : List Char → Option (List Char)
  | [] => none
  | c :: rest =>
    if c = '>' then some rest
    else if c = '<' then none
    else tagEnd rest

/-- Strip HTML tags, the `replace(/<[\/!]*?[^<>]*?>/g, "")` step of
`slugify` (source line 45). -/
def stripTags : Nat → List Char → List Char
  | 0, l => l
  | _ + 1, [] => []
  | f + 1, c :: rest =>
    if c = '<' then
      match tagEnd rest with
      | some rest2 => stripTags f rest2
      | none => c :: stripTags f rest
    else c :: stripTags f rest

/-- Characters kept by the `replace(/[^a-z0-9\s-]/g, "")` step of `slugify`. -/
def allowedSlugChar (c : Char) : Bool := isLowerAZ c || isDigitC c || jsSpace c || c == '-'

/-- Collapse every whitespace run to a single hyphen
(`replace(/\s+/g, "-")`, source line 47). -/
def collWsGo : Bool → List Char → List Char
  | _, [] => []
  | inRun, c :: rest =>
    if jsSpace c then
      if inRun then collWsGo true rest else '-' :: collWsGo true rest
    else c :: collWsGo false rest

/-- Collapse every hyphen run to a single hyphen
(the `replace` of regex "dash run" with "-", source line 48). -/
def collDashGo : Bool → List Char → List Char
  | _, [] => []
  | inRun, c :: rest =>
    if c = '-' then
      if inRun then collDashGo true rest else '-' :: collDashGo true rest
    else c :: collDashGo false rest

/-- Anchor id derivation `slugify` (source lines 41-49): lowercase, trim,
strip tags, drop non `[a-z0-9\s-]`, whitespace runs to `-`, collapse `-`. -/
def slugify (l : List Char) : List Char :=
  let t := trimL (l.map toLowerA)
  collDashGo false (collWsGo false (List.filter allowedSlugChar (stripTags (t.length + 1) t)))

/-- Decimal digit character for `d < 10`. -/
def digitChar : Nat → Char
  | 0 => '0' | 1 => '1' | 2 => '2' | 3 => '3' | 4 => '4'
  | 5 => '5' | 6 => '6' | 7 => '7' | 8 => '8' | _ => '9'

/-- Decimal rendering of a natural number (fuelled division recursion),
mirroring JavaScript number-to-string interpolation. -/
def natDecGo : Nat → Nat → List Char
  | 0, _ => []
  | f + 1, n => if n < 10 then [digitChar n] else natDecGo f (n / 10) ++ [digitChar (n % 10)]

/-- Decimal rendering of a natural number. -/
def natDec (n : Nat) : List Char := natDecGo (n + 1) n

/-- Placeholder key for id `n`: U+E000, then the decimal id, then U+E001 (source line 144). -/
def keyOfId (n : Nat) : List Char := phL :: natDec n ++ [phR]

/-- Reference-style link definition (source lines 55-58). -/
structure LinkDef where
  url : List Char
  title : Option (List Char)
deriving DecidableEq, Repr

/-- Insertion-ordered map update with JavaScript object semantics: a later
definition with the same key overwrites the value in place (last-wins),
keeping the original key position. -/
def updAssoc {α : Type} (k : List Char) (v : α) : List (List Char × α) → List (List Char × α)
  | [] => [(k, v)]
  | (k', v') :: rest => if k' = k then (k', v) :: rest else (k', v') :: updAssoc k v rest

/-- Lookup in an insertion-ordered map. -/
def lookupA {α : Type} (k : List Char) : List (List Char × α) → Option α
  | [] => none
  | (k', v) :: rest => if k' = k then some v else lookupA k rest

/-- Result of the definition extractor (source lines 60-65). -/
structure DefsResult where
  cleaned : List Char
  linkDefs : List (List Char × LinkDef)
  footnoteDefs : List (List Char × List Char)
  abbrDefs : List (List Char × List Char)
deriving DecidableEq, Repr

/-- Footnote definition line `[^id]: text` (source line 83). -/
def matchFootnoteDef (l : List Char) : Option (List Char × List Char) :=
  match l with
  | '[' :: '^' :: rest =>
    let id := rest.takeWhile (· ≠ ']')
    if id.isEmpty then none
    else
      match rest.drop id.length with
      | ']' :: ':' :: rest2 => some (id, rest2.dropWhile jsSpace)
      | _ => none
  | _ => none

/-- Footnote continuation test, regex `( {4,}|\t)` anchored at line start
(source line 91). -/
def fnContTest (l : List Char) : Bool :=
  decide (4 ≤ (l.takeWhile (· == ' ')).length) || l.head? == some '\t'

/-- Strip one level of footnote continuation indent: the first four spaces
or one tab (source line 92). -/
def fnContStrip (l : List Char) : List Char :=
  if leadMatch (("    ").toList) l then l.drop 4
  else if l.head? == some '\t' then l.drop 1
  else l

/-- Collect footnote continuation lines (source lines 89-100): indented lines
are appended with their indent stripped, blank lines contribute a bare
newline, the first other line stops the collection. -/
def fnCont : List (List Char) → (List Char × List (List Char))
  | [] => ([], [])
  | l :: rest =>
    if fnContTest l then
      let (t, r) := fnCont rest
      ('\n' :: (fnContStrip l ++ t), r)
    else if l.all jsSpace then
      let (t, r) := fnCont rest
      ('\n' :: t, r)
    else ([], l :: rest)

/-- Abbreviation definition line `*[term]: expansion` (source line 106). -/
def matchAbbrDef (l : List Char) : Option (List Char × List Char) :=
  match l with
  | '*' :: '[' :: rest =>
    let term := rest.takeWhile (· ≠ ']')
    if term.isEmpty then none
    else
      match rest.drop term.length with
      | ']' :: ':' :: rest2 =>
        let sp := rest2.takeWhile jsSpace
        let body := rest2.drop sp.length
        if sp.isEmpty || body.isEmpty then none else some (term, body)
      | _ => none
  | _ => none

/-- Scan for the closing quote of a lazy link-definition title: the first
quote followed only by whitespace ends the title (regex `"(.+?)"\s*` at
line end). -/
def titleScan : List Char → List Char → Option (List Char)
  | _, [] => none
  | acc, c :: rest =>
    if !acc.isEmpty && c == quoteC && rest.all jsSpace then some acc.reverse
    else titleScan (c :: acc) rest

/-- Reference link definition line `[label]: url "optional title"`
(source line 114). -/
def matchLinkDef (l : List Char) : Option (List Char × LinkDef) :=
  match l with
  | '[' :: rest =>
    let label := rest.takeWhile (· ≠ ']')
    if label.isEmpty then none
    else
      match rest.drop label.length with
      | ']' :: ':' :: rest2 =>
        let afterSp := rest2.dropWhile jsSpace
        let url := afterSp.takeWhile (fun c => !jsSpace c)
        if url.isEmpty then none
        else
          let tail := afterSp.drop url.length
          if tail.all jsSpace then some (label.map toLowerA, ⟨url, none⟩)
          else
            let sp := tail.takeWhile jsSpace
            if sp.isEmpty then none
            else
              match tail.drop sp.length with
              | q :: rest3 =>
                if q = quoteC then
                  match titleScan [] rest3 with
                  | some t => some (label.map toLowerA, ⟨url, some t⟩)
                  | none => none
                else none
              | [] => none
      | _ => none
  | _ => none

/-- Main loop of the definition extractor over the line list (source lines
78-124); fuelled, at least one line consumed per step. -/
def extractGo : Nat → List (List Char) → List (List Char) →
    List (List Char × LinkDef) → List (List Char × List Char) →
    List (List Char × List Char) → DefsResult
  | 0, _, rem, lks, fns, abs => ⟨joinNl rem, lks, fns, abs⟩
  | _ + 1, [], rem, lks, fns, abs => ⟨joinNl rem, lks, fns, abs⟩
  | f + 1, l :: rest, rem, lks, fns, abs =>
    match matchFootnoteDef l with
    | some (id, text) =>
      let (cont, rest2) := fnCont rest
      extractGo f rest2 rem lks (updAssoc id (text ++ cont) fns) abs
    | none =>
      match matchAbbrDef l with
      | some (term, body) => extractGo f rest rem lks fns (updAssoc term body abs)
      | none =>
        match matchLinkDef l with
        | some (label, d) => extractGo f rest rem (updAssoc label d lks) fns abs
        | none => extractGo f rest (rem ++ [l]) lks fns abs

/-- The definition extractor `extractDefinitions` (source lines 71-132). -/
def extractDefinitions (src : List Char) : DefsResult :=
  let lines := splitNl (normalizeNl src)
  extractGo (lines.length + 1) lines [] [] [] []

/-- Built-in emoji shortcode table (source lines 11-25). -/
def EMOJI_MAP : List (List Char × List Char) :=
  [ (("smile").toList, ("😄").toList), (("grin").toList, ("😁").toList),
    (("joy").toList, ("😂").toList), (("wink").toList, ("😉").toList),
    (("thumbsup").toList, ("👍").toList), (("thumbsdown").toList, ("👎").toList),
    (("heart").toList, ("❤️").toList), (("fire").toList, ("🔥").toList),
    (("tada").toList, ("🎉").toList), (("rocket").toList, ("🚀").toList),
    (("warning").toList, ("⚠️").toList), (("question").toList, ("❓").toList),
    (("check").toList, ("✅").toList) ]

/-- Table-of-contents marker (source line 27). -/
def TOC_PLACEHOLDER : List Char := ("§§__MD_TOC__§§").toList

/-- Heading record accumulated while parsing blocks (source line 157). -/
structure Heading where
  level : Nat
  text : List Char
  id : List Char
deriving DecidableEq, Repr

/-- Mutable compile-call state of `renderMarkdown`: the placeholder counter
and insertion-ordered placeholder map (source lines 140-141) plus the
heading list (source line 157). -/
structure St where
  nextId : Nat
  entries : List (List Char × List Char)
  headings : List Heading
deriving DecidableEq, Repr

/-- Initial state of one compile call. -/
def St.init : St := ⟨0, [], []⟩

/-- The `makePlaceholder` closure (source lines 143-147): registers `html`
under a fresh key and returns the key. -/
def mkPh (html : List Char) (st : St) : List Char × St :=
  (keyOfId st.nextId, ⟨st.nextId + 1, st.entries ++ [(keyOfId st.nextId, html)], st.headings⟩)

/-- The `restorePlaceholders` closure (source lines 149-155): substitute
every key by its stored fragment, in insertion order. -/
def restorePlaceholders (entries : List (List Char × List Char)) (s : List Char) : List Char :=
  entries.foldl (fun acc kv => replaceAllSub kv.1 kv.2 acc) s

/-- Per-call context for the inline renderer: the extracted definition
tables and the fuel bound for colored-span recursion. -/
structure Ctx where
  linkDefs : List (List Char × LinkDef)
  abbrDefs : List (List Char × List Char)
  ifuel : Nat

/-- A rule attempt: given whether the scan is at position 0, the previous
input character, the remaining input and the state, return the replacement
text, the number of input characters consumed (at least one) and the new
state, or `none` when the rule does not match here. -/
def TryFun : Type :=
  Bool → Option Char → List Char → St → Option (List Char × Nat × St)

/-- One global-replace pass with JavaScript semantics: try the rule at each
position from the left; on a match splice the replacement and resume after
the consumed characters, otherwise keep one character and move on. -/
def scanRule (tryM : TryFun) : Nat → Bool → Option Char → List Char → St → (List Char × St)
  | 0, _, _, l, st => (l, st)
  | f + 1, atStart, prev, l, st =>
    match l with
    | [] => ([], st)
    | c :: rest =>
      match tryM atStart prev l st with
      | some (rep, n, st2) =>
        if n = 0 then (l, st)
        else
          let (tail, st3) := scanRule tryM f false (l.take n).getLast? (l.drop n) st2
          (rep ++ tail, st3)
      | none =>
        let (tail, st2) := scanRule tryM f false (some c) rest st
        (c :: tail, st2)

/-- Run one rule over a whole string (fuel: one step per position). -/
def runRule (tryM : TryFun) (s : List Char) (st : St) : List Char × St :=
  scanRule tryM (s.length + 1) true none s st

/-- Newline-to-line-break rule (source line 169). -/
def tryLineBreak : TryFun := fun _ _ l st =>
  match l with
  | '\n' :: _ =>
    let (k, st2) := mkPh (("<br class=\"block\" />").toList) st
    some (k, 1, st2)
  | _ => none

/-- Characters whose backslash escape is recognized (source line 173). -/
def escSet : List Char := ("\\\x60*_\x7b\x7d[]()#+-.!|>~:=").toList

/-- Backslash-escape rule (source lines 172-175). -/
def tryEscape : TryFun := fun _ _ l st =>
  match l with
  | c :: c2 :: _ =>
    if c = bslashC && hasChar c2 escSet then
      let (k, st2) := mkPh (escapeHtml [c2]) st
      some (k, 2, st2)
    else none
  | _ => none

/-- Code-span rule, single backtick pair (source lines 178-184). -/
def tryCodeSpan : TryFun := fun _ _ l st =>
  match l with
  | c :: rest =>
    if c = btickC then
      let run := rest.takeWhile (· ≠ btickC)
      if run.isEmpty then none
      else
        match rest.drop run.length with
        | c2 :: _ =>
          if c2 = btickC then
            let html := ("<code class=\"rounded bg-muted px-1 py-0.5 text-[0.8em] font-mono\">").toList
              ++ escapeHtml run ++ ("</code>").toList
            let (k, st2) := mkPh html st
            some (k, run.length + 2, st2)
          else none
        | [] => none
    else none
  | [] => none

/-- Anchor markup for an angle-bracket or bare URL autolink (source lines
187-196 and 384-395 differ only in the class list). -/
def urlAnchor (cls : List Char) (url : List Char) : List Char :=
  ("<a href=\"").toList ++ escapeHtmlAttr url
    ++ ("\" target=\"_blank\" rel=\"noreferrer\" class=\"").toList ++ cls
    ++ ("\">").toList ++ escapeHtml url ++ ("</a>").toList

/-- Mailto markup for an email autolink (source lines 199-209, 398-409). -/
def mailtoAnchor (email : List Char) : List Char :=
  ("<a href=\"mailto:").toList ++ escapeHtmlAttr email
    ++ ("\" class=\"text-primary underline-offset-2 hover:underline\">").toList
    ++ escapeHtml email ++ ("</a>").toList

/-- Angle-bracket URL autolink rule (source lines 187-197); case-sensitive
scheme alternation `https? | ftp`. -/
def tryAngleUrl : TryFun := fun _ _ l st =>
  match l with
  | '<' :: rest =>
    let sl := if leadMatch (("https://").toList) rest then 8
      else if leadMatch (("http://").toList) rest then 7
      else if leadMatch (("ftp://").toList) rest then 6
      else 0
    if sl = 0 then none
    else
      let after := rest.drop sl
      let run := after.takeWhile (· ≠ '>')
      if run.isEmpty then none
      else
        match after.drop run.length with
        | '>' :: _ =>
          let url := rest.take sl ++ run
          let (k, st2) := mkPh (urlAnchor (("text-primary underline-offset-2 hover:underline").toList) url) st
          some (k, 1 + sl + run.length + 1, st2)
        | _ => none
  | _ => none

/-- Angle-bracket email autolink rule (source lines 199-209): local part,
`@`, then a domain run whose trailing alpha run (length at least two) is
preceded by a dot that is not the first domain character, all up to `>`. -/
def tryAngleEmail : TryFun := fun _ _ l st =>
  match l with
  | '<' :: rest =>
    let loc := rest.takeWhile isLocalC
    if loc.isEmpty then none
    else
      match rest.drop loc.length with
      | '@' :: rest2 =>
        let dom := rest2.takeWhile isDomC
        match rest2.drop dom.length with
        | '>' :: _ =>
          let talpha := (dom.reverse.takeWhile isAlphaC).reverse
          let stem := dom.take (dom.length - talpha.length)
          if decide (2 ≤ talpha.length) && decide (2 ≤ stem.length)
              && (stem.getLast? == some '.') then
            let email := loc ++ '@' :: dom
            let (k, st2) := mkPh (mailtoAnchor email) st
            some (k, 1 + loc.length + 1 + dom.length + 1, st2)
          else none
        | _ => none
      | _ => none
  | _ => none

/-- HTML comment rule (source line 212): the comment text is protected
verbatim. -/
def tryComment : TryFun := fun _ _ l st =>
  if leadMatch (("<!--").toList) l then
    let rest := l.drop 4
    match findSubIdx (rest.length + 1) (("-->").toList) rest with
    | some i =>
      let (k, st2) := mkPh (l.take (4 + i + 3)) st
      some (k, 4 + i + 3, st2)
    | none => none
  else none

/-- Inline HTML tag rule (source line 215): `<`, optional `/`, a letter,
then anything up to `>`; protected verbatim. -/
def tryInlineTag : TryFun := fun _ _ l st =>
  match l with
  | '<' :: rest =>
    let slashN := if rest.head? == some '/' then 1 else 0
    let rest1 := rest.drop slashN
    match rest1 with
    | c :: r2 =>
      if isAlphaC c then
        let run := r2.takeWhile (· ≠ '>')
        match r2.drop run.length with
        | '>' :: _ =>
          let n := 1 + slashN + 1 + run.length + 1
          let (k, st2) := mkPh (l.take n) st
          some (k, n, st2)
        | _ => none
      else none
    | [] => none
  | _ => none

/-- Optional title attribute fragment shared by images and links. -/
def titleAttrHtml : Option (List Char) → List Char
  | some t => (" title=\"").toList ++ escapeHtmlAttr t ++ ("\"").toList
  | none => []

/-- Image markup (source lines 228-232, 242-246). -/
def imgHtml (srcUrl : List Char) (alt : List Char) (title : Option (List Char)) : List Char :=
  ("<img src=\"").toList ++ srcUrl ++ ("\" alt=\"").toList ++ escapeHtmlAttr alt
    ++ ("\"").toList ++ titleAttrHtml title
    ++ (" class=\"inline-block max-w-full align-middle rounded-md\" />").toList

/-- Link markup for reference-style and inline links (source lines 262-264,
274-277). -/
def linkHtml (href : List Char) (title : Option (List Char)) (label : List Char) : List Char :=
  ("<a href=\"").toList ++ href ++ ("\"").toList ++ titleAttrHtml title
    ++ (" target=\"_blank\" rel=\"noreferrer\" class=\"text-primary underline-offset-2 hover:underline\">").toList
    ++ escapeHtml label ++ ("</a>").toList

/-- Reference-style image rule `![alt][id]` (source lines 218-234): with no
definition the match is consumed but left unchanged. -/
def tryRefImage (linkDefs : List (List Char × LinkDef)) : TryFun := fun _ _ l st =>
  match l with
  | '!' :: '[' :: rest =>
    let alt := rest.takeWhile (· ≠ ']')
    match rest.drop alt.length with
    | ']' :: '[' :: rest2 =>
      let id := rest2.takeWhile (· ≠ ']')
      match rest2.drop id.length with
      | ']' :: _ =>
        let n := 2 + alt.length + 2 + id.length + 1
        let key := (if id.isEmpty then alt else id).map toLowerA
        match lookupA key linkDefs with
        | none => some (l.take n, n, st)
        | some d =>
          let (k, st2) := mkPh (imgHtml (escapeHtmlAttr d.url) alt d.title) st
          some (k, n, st2)
      | _ => none
    | _ => none
  | _ => none

/-- Scan for the closing quote of a lazy image/link title: minimal nonempty
content up to a quote directly followed by `)`. Returns the content and the
characters consumed including closing quote and paren. -/
def titleCloseScan : Nat → List Char → List Char → Option (List Char × Nat)
  | 0, _, _ => none
  | f + 1, acc, l =>
    match l with
    | [] => none
    | c :: rest =>
      if !acc.isEmpty && c == quoteC && rest.head? == some ')' then
        some (acc.reverse, acc.length + 2)
      else titleCloseScan f (c :: acc) rest

/-- Lazy URL scan for `\(\S+?(?:\s+"(.+?)")?\)`: extend the nonempty URL one
non-space character at a time, at each boundary first trying the optional
quoted title (greedy option) and then the bare closing paren. Returns the
URL, the optional title, and the characters consumed after the opening
paren. -/
def urlScanGo : Nat → List Char → List Char → Option (List Char × Option (List Char) × Nat)
  | 0, _, _ => none
  | f + 1, acc, l =>
    match l with
    | [] => none
    | c :: rest =>
      if jsSpace c then
        let sp := (c :: rest).takeWhile jsSpace
        match (c :: rest).drop sp.length with
        | q :: rest3 =>
          if q = quoteC then
            match titleCloseScan (rest3.length + 1) [] rest3 with
            | some (content, used) =>
              some (acc.reverse, some content, acc.length + sp.length + 1 + used)
            | none => none
          else none
        | [] => none
      else if c = ')' then some (acc.reverse, none, acc.length + 1)
      else urlScanGo f (c :: acc) rest

/-- Inline image rule `![alt](url "title")` (source lines 237-248). -/
def tryInlineImage : TryFun := fun _ _ l st =>
  match l with
  | '!' :: '[' :: rest =>
    let alt := rest.takeWhile (· ≠ ']')
    match rest.drop alt.length with
    | ']' :: '(' :: rest2 =>
      match rest2 with
      | c :: r3 =>
        if jsSpace c then none
        else
          match urlScanGo (rest2.length + 1) [c] r3 with
          | some (url, title, used) =>
            let n := 2 + alt.length + 2 + used
            let (k, st2) := mkPh (imgHtml (escapeHtmlAttr (unescapeMdUrl url)) alt title) st
            some (k, n, st2)
          | none => none
      | [] => none
    | _ => none
  | _ => none

/-- Reference-style link rule `[text][id]` (source lines 251-266): with no
definition the match is consumed but left unchanged. -/
def tryRefLink (linkDefs : List (List Char × LinkDef)) : TryFun := fun _ _ l st =>
  match l with
  | '[' :: rest =>
    let label := rest.takeWhile (· ≠ ']')
    if label.isEmpty then none
    else
      match rest.drop label.length with
      | ']' :: '[' :: rest2 =>
        let id := rest2.takeWhile (· ≠ ']')
        match rest2.drop id.length with
        | ']' :: _ =>
          let n := 1 + label.length + 2 + id.length + 1
          let key := (if id.isEmpty then label else id).map toLowerA
          match lookupA key linkDefs with
          | none => some (l.take n, n, st)
          | some d =>
            let (k, st2) := mkPh (linkHtml (escapeHtmlAttr d.url) d.title label) st
            some (k, n, st2)
        | _ => none
      | _ => none
  | _ => none

/-- Inline link rule `[text](url "title")` (source lines 269-279). -/
def tryInlineLink : TryFun := fun _ _ l st =>
  match l with
  | '[' :: rest =>
    let label := rest.takeWhile (· ≠ ']')
    if label.isEmpty then none
    else
      match rest.drop label.length with
      | ']' :: '(' :: rest2 =>
        match rest2 with
        | c :: r3 =>
          if jsSpace c then none
          else
            match urlScanGo (rest2.length + 1) [c] r3 with
            | some (url, title, used) =>
              let n := 1 + label.length + 2 + used
              let (k, st2) := mkPh (linkHtml (escapeHtmlAttr (unescapeMdUrl url)) title label) st
              some (k, n, st2)
            | none => none
        | [] => none
      | _ => none
  | _ => none

/-- Footnote reference rule `[^id]` (source lines 282-289): emitted even for
ids with no matching definition. -/
def tryFootnoteRef : TryFun := fun _ _ l st =>
  match l with
  | '[' :: '^' :: rest =>
    let id := rest.takeWhile (· ≠ ']')
    if id.isEmpty then none
    else
      match rest.drop id.length with
      | ']' :: _ =>
        let fid := escapeHtmlAttr id
        let html := ("<sup id=\"fnref-").toList ++ fid
          ++ ("\" class=\"text-[0.7em] align-super\"><a href=\"#fn-").toList ++ fid
          ++ ("\" class=\"text-primary underline-offset-2 hover:underline\">[").toList
          ++ escapeHtml fid ++ ("]</a></sup>").toList
        let (k, st2) := mkPh html st
        some (k, 2 + id.length + 1, st2)
      | _ => none
  | _ => none

/-- Highlight rule `==text==` with character-class content (source lines
292-298). -/
def tryHighlight : TryFun := fun _ _ l st =>
  match l with
  | '=' :: '=' :: rest =>
    let run := rest.takeWhile (· ≠ '=')
    if run.isEmpty then none
    else
      match rest.drop run.length with
      | '=' :: '=' :: _ =>
        let html := ("<mark class=\"rounded bg-yellow-200/70 px-0.5 dark:bg-yellow-500/40\">").toList
          ++ escapeHtml run ++ ("</mark>").toList
        let (k, st2) := mkPh html st
        some (k, run.length + 4, st2)
      | _ => none
  | _ => none

/-- Symmetric-delimiter wrap with a lazy any-character body and a
backreference closer (`(delim)([^]+?)\1`): the shortest nonempty content
before the next occurrence of the same delimiter. -/
def tryWrapPair (d : List Char) (mk : List Char → List Char) (l : List Char) (st : St) :
    Option (List Char × Nat × St) :=
  if leadMatch d l then
    let rest := l.drop d.length
    match findSubIdx (rest.length + 1) d (rest.drop 1) with
    | some j =>
      let content := rest.take (j + 1)
      let (k, st2) := mkPh (mk (escapeHtml content)) st
      some (k, d.length + (j + 1) + d.length, st2)
    | none => none
  else none

/-- Bold-italic markup (source lines 304-308). -/
def biHtml (inner : List Char) : List Char :=
  ("<strong class=\"font-semibold\"><em class=\"italic\">").toList ++ inner
    ++ ("</em></strong>").toList

/-- Bold markup (source line 316). -/
def boldHtml (inner : List Char) : List Char :=
  ("<strong class=\"font-semibold\">").toList ++ inner ++ ("</strong>").toList

/-- Italic markup (source line 324). -/
def italHtml (inner : List Char) : List Char :=
  ("<em class=\"italic\">").toList ++ inner ++ ("</em>").toList

/-- Bold-italic rule `***text***` or `___text___` (source lines 301-309). -/
def tryBoldItalic : TryFun := fun _ _ l st =>
  match tryWrapPair (("***").toList) biHtml l st with
  | some r => some r
  | none => tryWrapPair (("___").toList) biHtml l st

/-- Bold rule `**text**` or `__text__` (source lines 312-318). -/
def tryBold : TryFun := fun _ _ l st =>
  match tryWrapPair (("**").toList) boldHtml l st with
  | some r => some r
  | none => tryWrapPair (("__").toList) boldHtml l st

/-- Italic rule `*text*` or `_text_` (source lines 321-325). -/
def tryItalic : TryFun := fun _ _ l st =>
  match tryWrapPair (("*").toList) italHtml l st with
  | some r => some r
  | none => tryWrapPair (("_").toList) italHtml l st

/-- Strikethrough rule `~~text~~` with character-class content (source lines
328-332). -/
def tryStrike : TryFun := fun _ _ l st =>
  match l with
  | '~' :: '~' :: rest =>
    let run := rest.takeWhile (· ≠ '~')
    if run.isEmpty then none
    else
      match rest.drop run.length with
      | '~' :: '~' :: _ =>
        let html := ("<del class=\"opacity-70\">").toList ++ escapeHtml run ++ ("</del>").toList
        let (k, st2) := mkPh html st
        some (k, run.length + 4, st2)
      | _ => none
  | _ => none

/-- Named color set (source lines 340-348). -/
def namedColors : List (List Char) :=
  [ ("red").toList, ("blue").toList, ("green").toList, ("yellow").toList,
    ("pink").toList, ("purple").toList, ("orange").toList ]

/-- Colored-span rule `[color=X]...[` `/color]` (source lines 335-370): the
one rule that re-enters the inline renderer (passed in as `rec`); on a
color token that is neither named nor hex, the match is consumed but left
unchanged. -/
def tryColor (rec : List Char → St → (List Char × St)) : TryFun := fun _ _ l st =>
  if leadMatch (("[color=").toList) l then
    let rest := l.drop 7
    let run := rest.takeWhile isColorC
    if run.isEmpty then none
    else
      match rest.drop run.length with
      | ']' :: rest2 =>
        match findSubIdx (rest2.length + 1) (("[/color]").toList) (rest2.drop 1) with
        | some j =>
          let content := rest2.take (j + 1)
          let n := 7 + run.length + 1 + (j + 1) + 8
          let lower := run.map toLowerA
          if namedColors.any (fun x => x == lower) then
            let cls := ("text-").toList ++ lower ++ ("-500").toList
            let (inner, st2) := rec content st
            let html := ("<span class=\"").toList ++ escapeHtmlAttr cls ++ ("\">").toList
              ++ inner ++ ("</span>").toList
            let (k, st3) := mkPh html st2
            some (k, n, st3)
          else
            let digits := if lower.head? == some '#' then lower.drop 1 else lower
            if (digits.length == 3 || digits.length == 6) && digits.all isHexLower then
              let hex := '#' :: digits
              let (inner, st2) := rec content st
              let html := ("<span style=\"color:").toList ++ escapeHtmlAttr hex ++ ("\">").toList
                ++ inner ++ ("</span>").toList
              let (k, st3) := mkPh html st2
              some (k, n, st3)
            else some (l.take n, n, st)
        | none => none
      | _ => none
  else none

/-- Emoji shortcode rule `:name:` (source lines 373-381): unknown codes are
consumed but left unchanged. -/
def tryEmoji : TryFun := fun _ _ l st =>
  match l with
  | ':' :: rest =>
    let run := rest.takeWhile isEmojiC
    if run.isEmpty then none
    else
      match rest.drop run.length with
      | ':' :: _ =>
        let n := run.length + 2
        match lookupA (run.map toLowerA) EMOJI_MAP with
        | some g =>
          let html := ("<span class=\"md-emoji inline-block align-[-0.15em]\" role=\"img\" aria-label=\"").toList
            ++ escapeHtmlAttr run ++ ("\">").toList ++ g ++ ("</span>").toList
          let (k, st2) := mkPh html st
          some (k, n, st2)
        | none => some (l.take n, n, st)
      | _ => none
  | _ => none

/-- Leading-context helper for the `(^|[\s(])` rules: at position 0 first
try the empty anchor, otherwise (or on failure) consume one whitespace or
`(` character as part of the match and re-emit it before the replacement. -/
def withPre (atStart : Bool) (l : List Char) (st : St)
    (body : List Char → St → Option (List Char × Nat × St)) :
    Option (List Char × Nat × St) :=
  let direct := if atStart then body l st else none
  match direct with
  | some r => some r
  | none =>
    match l with
    | c :: rest =>
      if jsSpace c || c == '(' then
        match body rest st with
        | some (rep, n, st2) => some (c :: rep, n + 1, st2)
        | none => none
      else none
    | [] => none

/-- Characters excluded from the final position of a bare autolinked URL. -/
def urlPunct (c : Char) : Bool :=
  c == '.' || c == ',' || c == ':' || c == ';' || c == quoteC || c == aposC ||
  c == ')' || c == ']' || c == rbraceC || c == '!'

/-- Bare URL autolink rule (source lines 384-395), `/gi`: case-insensitive
scheme, then the maximal non-space non-`<` run with trailing URL
punctuation given back; total run length at least two. -/
def tryBareUrl : TryFun := fun atStart _ l st =>
  withPre atStart l st (fun l2 st2 =>
    let sl := if leadMatchCI (("https://").toList) l2 then 8
      else if leadMatchCI (("http://").toList) l2 then 7
      else if leadMatchCI (("ftp://").toList) l2 then 6
      else 0
    if sl = 0 then none
    else
      let m := (l2.drop sl).takeWhile (fun c => !jsSpace c && c ≠ '<')
      let t := (m.reverse.dropWhile urlPunct).length
      if decide (2 ≤ t) then
        let url := l2.take sl ++ m.take t
        let (k, st3) := mkPh (urlAnchor (("text-primary underline-offset-2 hover:underline break-all").toList) url) st2
        some (k, sl + t, st3)
      else none)

/-- Descending search for the rightmost dot of a bare email domain with at
least two letters after it (greedy backtracking of `[A-Za-z0-9.-]+\.[A-Za-z]{2,}`). -/
def domSplitGo (R : List Char) : Nat → Option (Nat × Nat)
  | 0 => none
  | i + 1 =>
    let k := i + 1
    if R.get? k == some '.' then
      let run := (R.drop (k + 1)).takeWhile isAlphaC
      if decide (2 ≤ run.length) then some (k, run.length) else domSplitGo R i
    else domSplitGo R i

/-- Bare email autolink rule (source lines 398-409). -/
def tryBareEmail : TryFun := fun atStart _ l st =>
  withPre atStart l st (fun l2 st2 =>
    let loc := l2.takeWhile isLocalC
    if loc.isEmpty then none
    else
      match l2.drop loc.length with
      | '@' :: rest2 =>
        let dom := rest2.takeWhile isDomC
        match domSplitGo dom (dom.length - 1) with
        | some (m, a) =>
          let email := loc ++ '@' :: (dom.take m ++ '.' :: (dom.drop (m + 1)).takeWhile isAlphaC)
          let (k, st3) := mkPh (mailtoAnchor email) st2
          some (k, loc.length + 1 + m + 1 + a, st3)
        | none => none
      | _ => none)

/-- Issue reference rule `#123` with a trailing word boundary (source lines
412-423). -/
def tryIssue : TryFun := fun atStart _ l st =>
  withPre atStart l st (fun l2 st2 =>
    match l2 with
    | '#' :: rest =>
      let d := rest.takeWhile isDigitC
      if d.isEmpty then none
      else
        match (rest.drop d.length).head? with
        | some c =>
          if isWordC c then none
          else
            let (k, st3) := mkPh (issueHtml d) st2
            some (k, 1 + d.length, st3)
        | none =>
          let (k, st3) := mkPh (issueHtml d) st2
          some (k, 1 + d.length, st3)
    | _ => none)
where
  issueHtml (d : List Char) : List Char :=
    ("<a href=\"#").toList ++ escapeHtmlAttr d
      ++ ("\" class=\"md-issue text-blue-600 underline-offset-2 hover:underline dark:text-blue-400\">#").toList
      ++ escapeHtml d ++ ("</a>").toList

/-- User mention rule `@username` (source lines 426-435). -/
def tryMention : TryFun := fun atStart _ l st =>
  withPre atStart l st (fun l2 st2 =>
    match l2 with
    | '@' :: c :: r =>
      if isWordC c then
        let run := r.takeWhile (fun x => isWordC x || x == '-')
        let user := c :: run
        let html := ("<span class=\"md-mention inline-flex items-center rounded bg-primary/10 px-1 text-[0.75rem] font-medium text-primary\">@").toList
          ++ escapeHtml user ++ ("</span>").toList
        let (k, st3) := mkPh html st2
        some (k, 2 + run.length, st3)
      else none
    | _ => none)

/-- Commit hash rule, 7 to 40 hex characters with a trailing word boundary
(source lines 438-447), `/gi`. -/
def tryCommit : TryFun := fun atStart _ l st =>
  withPre atStart l st (fun l2 st2 =>
    let h := l2.takeWhile isHexAny
    if decide (7 ≤ h.length) && decide (h.length ≤ 40) then
      match (l2.drop h.length).head? with
      | some c =>
        if isWordC c then none
        else
          let (k, st3) := mkPh (commitHtml h) st2
          some (k, h.length, st3)
      | none =>
        let (k, st3) := mkPh (commitHtml h) st2
        some (k, h.length, st3)
    else none)
where
  commitHtml (h : List Char) : List Char :=
    ("<code class=\"md-commit rounded bg-muted px-1 py-0.5 text-[0.75em] font-mono\">").toList
      ++ escapeHtml h ++ ("</code>").toList

/-- One abbreviation pass: the literal term with `\b` on both sides
(source lines 450-462). -/
def tryAbbrT (term title : List Char) : TryFun := fun _ prev l st =>
  if leadMatch term l then
    let firstW := match term.head? with | some c => isWordC c | none => false
    let lastW := match term.getLast? with | some c => isWordC c | none => false
    let prevW := match prev with | some c => isWordC c | none => false
    let nextW := match (l.drop term.length).head? with | some c => isWordC c | none => false
    if (prevW != firstW) && (lastW != nextW) then
      let html := ("<abbr title=\"").toList ++ escapeHtmlAttr title
        ++ ("\" class=\"cursor-help underline decoration-dotted\">").toList
        ++ escapeHtml term ++ ("</abbr>").toList
      let (k, st2) := mkPh html st
      some (k, term.length, st2)
    else none
  else none

/-- Sequential abbreviation passes in definition insertion order
(source lines 450-462). -/
def abbrPasses : List (List Char × List Char) → List Char → St → (List Char × St)
  | [], s, st => (s, st)
  | (term, title) :: rest, s, st =>
    let (s2, st2) := runRule (tryAbbrT term title) s st
    abbrPasses rest s2 st2

/-- The inline renderer `renderInline` (source lines 159-465): the ordered
rewrite pipeline.  The fuel argument bounds colored-span re-entry only; all
other passes are plain scans. -/
def renderInline (ctx : Ctx) : Nat → List Char → St → (List Char × St)
  | 0, s, st => (s, st)
  | fuel + 1, text, st => Id.run do
    if text.isEmpty then return ([], st)
    let s := normalizeNl text
    let (s, st) := runRule tryLineBreak s st
    let (s, st) := runRule tryEscape s st
    let (s, st) := runRule tryCodeSpan s st
    let (s, st) := runRule tryAngleUrl s st
    let (s, st) := runRule tryAngleEmail s st
    let (s, st) := runRule tryComment s st
    let (s, st) := runRule tryInlineTag s st
    let (s, st) := runRule (tryRefImage ctx.linkDefs) s st
    let (s, st) := runRule tryInlineImage s st
    let (s, st) := runRule (tryRefLink ctx.linkDefs) s st
    let (s, st) := runRule tryInlineLink s st
    let (s, st) := runRule tryFootnoteRef s st
    let (s, st) := runRule tryHighlight s st
    let (s, st) := runRule tryBoldItalic s st
    let (s, st) := runRule tryBold s st
    let (s, st) := runRule tryItalic s st
    let (s, st) := runRule tryStrike s st
    let (s, st) := runRule (tryColor (renderInline ctx fuel)) s st
    let (s, st) := runRule tryEmoji s st
    let (s, st) := runRule tryBareUrl s st
    let (s, st) := runRule tryBareEmail s st
    let (s, st) := runRule tryIssue s st
    let (s, st) := runRule tryMention s st
    let (s, st) := runRule tryCommit s st
    return abbrPasses ctx.abbrDefs s st

/-- Split a list on a separator character (JavaScript `split`). -/
def splitOnC (sep : Char) : List Char → List (List Char)
  | [] => [[]]
  | c :: rest =>
    if c = sep then [] :: splitOnC sep rest
    else
      match splitOnC sep rest with
      | [] => [[c]]
      | x :: xs => (c :: x) :: xs

/-- Strip one leading and one trailing pipe (`replace` of anchored pipe
patterns, source lines 472-474 and 490-492). -/
def stripPipes (l : List Char) : List Char :=
  let l1 := if l.head? == some '|' then l.drop 1 else l
  if l1.getLast? == some '|' then l1.take (l1.length - 1) else l1

/-- Divider cell test `:?-{3,}:?` (source line 478). -/
def dividerCellOk (c : List Char) : Bool :=
  let c1 := if c.head? == some ':' then c.drop 1 else c
  let ds := c1.takeWhile (· == '-')
  let rest := c1.drop ds.length
  decide (3 ≤ ds.length) && (rest.isEmpty || rest == [':'])

/-- Split a table row line into trimmed cells (source lines 488-494). -/
def splitRow (line : List Char) : List (List Char) :=
  ((splitOnC '|' (stripPipes (trimL line))).map trimL)

/-- Alignment-divider row test `isTableDivider` (source lines 467-479). -/
def isTableDivider (line : List Char) : Bool :=
  let trimmed := trimL line
  if trimmed.isEmpty then false
  else
    let pipeCount := (trimmed.filter (· == '|')).length
    if pipeCount < 1 then false
    else
      let cells := (splitOnC '|' (stripPipes trimmed)).map trimL
      if cells.isEmpty then false
      else cells.all dividerCellOk

/-- Column alignment from a divider cell (source lines 498-505): both-side
colons give center, a right colon right, a left colon left, else none. -/
def alignOfCell (c : List Char) : List Char :=
  let left := c.head? == some ':'
  let right := c.getLast? == some ':'
  if left && right then ("center").toList
  else if right then ("right").toList
  else if left then ("left").toList
  else []

/-- Style attribute fragment for a (possibly empty) alignment. -/
def alignStyle (align : List Char) : List Char :=
  if align.isEmpty then []
  else (" style=\"text-align:").toList ++ align ++ ("\"").toList

/-- Header cell markup (source lines 519-525). -/
def thCell (align inner : List Char) : List Char :=
  ("<th").toList ++ alignStyle align
    ++ (" class=\"border-b border-border/60 px-2 py-1 text-left text-[0.75rem] font-medium text-muted-foreground\">").toList
    ++ inner ++ ("</th>").toList

/-- Body cell markup (source lines 536-542). -/
def tdCell (align inner : List Char) : List Char :=
  ("<td").toList ++ alignStyle align
    ++ (" class=\"border-b border-border/40 px-2 py-1 align-top\">").toList
    ++ inner ++ ("</td>").toList

/-- Render header cells with their column alignments, threading state. -/
def thCells (ctx : Ctx) (aligns : List (List Char)) : Nat → List (List Char) → St → (List Char × St)
  | _, [], st => ([], st)
  | idx, c :: rest, st =>
    let (inner, st2) := renderInline ctx ctx.ifuel c st
    let (tail, st3) := thCells ctx aligns (idx + 1) rest st2
    (thCell (aligns.getD idx []) inner ++ tail, st3)

/-- Render the cells of one body row (the row's own cells only). -/
def tdCells (ctx : Ctx) (aligns : List (List Char)) : Nat → List (List Char) → St → (List Char × St)
  | _, [], st => ([], st)
  | idx, c :: rest, st =>
    let (inner, st2) := renderInline ctx ctx.ifuel c st
    let (tail, st3) := tdCells ctx aligns (idx + 1) rest st2
    (tdCell (aligns.getD idx []) inner ++ tail, st3)

/-- Collect body rows: lines that are nonblank and contain a pipe
(source lines 507-514). -/
def tableRowsGo : List (List Char) → (List (List (List Char)) × List (List Char))
  | [] => ([], [])
  | l :: rest =>
    if !(trimL l).isEmpty && hasChar '|' l then
      let (rs, rem) := tableRowsGo rest
      (splitRow l :: rs, rem)
    else ([], l :: rest)

/-- Render the body rows, threading state. -/
def tbodyRows (ctx : Ctx) (aligns : List (List Char)) : List (List (List Char)) → St → (List Char × St)
  | [], st => ([], st)
  | row :: rest, st =>
    let (cells, st2) := tdCells ctx aligns 0 row st
    let (tail, st3) := tbodyRows ctx aligns rest st2
    (("<tr>").toList ++ cells ++ ("</tr>").toList ++ tail, st3)

/-- Table block `parseTableAt` (source lines 481-551): header line, divider
line, then body rows; returns the markup and the unconsumed lines. -/
def parseTable (ctx : Ctx) (header divider : List Char) (rest : List (List Char)) (st : St) :
    (List Char × List (List Char) × St) :=
  let headers := splitRow header
  let aligns := (splitRow divider).map alignOfCell
  let (rows, rem) := tableRowsGo rest
  let (ths, st2) := thCells ctx aligns 0 headers st
  let (trs, st3) := tbodyRows ctx aligns rows st2
  let html := ("<table class=\"my-3 w-full border-collapse overflow-hidden rounded-md border border-border/60 text-xs\">").toList
    ++ ("<thead class=\"bg-muted/40\"><tr>").toList ++ ths ++ ("</tr></thead>").toList
    ++ ("<tbody>").toList ++ trs ++ ("</tbody>").toList
    ++ ("</table>").toList
  (html, rem, st3)

/-- List item line `(\s*)([*+-]|\d+\.)\s+(.*)` (source line 557): returns
indent width, marker text and content. -/
def matchItem (l : List Char) : Option (Nat × List Char × List Char) :=
  let sp := l.takeWhile jsSpace
  let rest := l.drop sp.length
  match rest with
  | c :: r =>
    if c == '*' || c == '+' || c == '-' then
      let sp2 := r.takeWhile jsSpace
      if sp2.isEmpty then none
      else some (sp.length, [c], r.drop sp2.length)
    else
      let ds := rest.takeWhile isDigitC
      if ds.isEmpty then none
      else
        match rest.drop ds.length with
        | '.' :: r2 =>
          let sp2 := r2.takeWhile jsSpace
          if sp2.isEmpty then none
          else some (sp.length, ds ++ [('.')], r2.drop sp2.length)
        | _ => none
  | [] => none

/-- Unanchored test for `\d+\.` inside a marker (source line 563). -/
def hasDigitDot : List Char → Bool
  | [] => false
  | c :: rest =>
    if isDigitC c then
      let ds := rest.takeWhile isDigitC
      if (rest.drop ds.length).head? == some '.' then true else hasDigitDot rest
    else hasDigitDot rest

/-- Task list head `\[( |x|X)\]\s+(.*)` (source line 612). -/
def taskMatch (l : List Char) : Option (Bool × List Char) :=
  match l with
  | '[' :: c :: ']' :: r =>
    if c == ' ' || c == 'x' || c == 'X' then
      let sp := r.takeWhile jsSpace
      if sp.isEmpty then none
      else some (c == 'x' || c == 'X', r.drop sp.length)
    else none
  | _ => none

/-- Strip up to `n` leading whitespace characters (`\s{0,n}` anchored,
source line 606). -/
def stripUpTo (n : Nat) (l : List Char) : List Char :=
  l.drop (min n (l.takeWhile jsSpace).length)

/-- Collect continuation lines of one list item (source lines 595-609):
a blank line is consumed and stops the item, a new marker line stops it
without being consumed, other lines join the item with up to
`baseIndent + 2` spaces stripped. -/
def collectCont (base : Nat) : List (List Char) → (List (List Char) × List (List Char))
  | [] => ([], [])
  | l :: rest =>
    if (trimL l).isEmpty then ([], rest)
    else if (matchItem l).isSome then ([], l :: rest)
    else
      let (xs, r) := collectCont base rest
      (stripUpTo (base + 2) l :: xs, r)

/-- Append extra markup to the final accumulated item, used to fold a
nested list into the preceding item (source lines 580-583). -/
def appendToLast : List (List Char) → List Char → List (List Char)
  | [], _ => []
  | [x], e => [x ++ e]
  | x :: xs, e => x :: appendToLast xs e

/-- Disabled checkbox prefix of a task item (source lines 616-619),
including the trailing space of the template. -/
def checkboxHtml (checked : Bool) : List Char :=
  ("<input type=\"checkbox\" disabled").toList
    ++ (if checked then (" checked").toList else [])
    ++ (" class=\"mr-1 h-3 w-3 rounded border border-border align-middle accent-primary\" /> ").toList

/-- Loop of the list sub-renderer (source lines 569-628); `nested` re-enters
the list block for deeper-indented runs, whose markup is appended to the
previous item rather than emitted as a sibling. -/
def listLoopCore (ctx : Ctx) (nested : List (List Char) → St → (List Char × List (List Char) × St))
    (base : Nat) : Nat → List (List Char) → List (List Char) → St →
    (List (List Char) × List (List Char) × St)
  | 0, lines, acc, st => (acc, lines, st)
  | _ + 1, [], acc, st => (acc, [], st)
  | f + 1, l :: rest, acc, st =>
    if (trimL l).isEmpty then (acc, l :: rest, st)
    else
      match matchItem l with
      | none => (acc, l :: rest, st)
      | some (ind, _, content) =>
        if ind < base then (acc, l :: rest, st)
        else if base < ind then
          let (nhtml, rem, st2) := nested (l :: rest)  st
          listLoopCore ctx nested base f rem (appendToLast acc nhtml) st2
        else
          let (cont, rem) := collectCont base rest
          let itemLines := content :: cont
          let (pfx, bodyLines) :=
            match itemLines with
            | first :: others =>
              match taskMatch first with
              | some (checked, afterTask) => (checkboxHtml checked, afterTask :: others)
              | none => ([], itemLines)
            | [] => ([], itemLines)
          let bodyText := joinNl bodyLines
          let (inner, st2) := renderInline ctx ctx.ifuel (trimL bodyText) st
          let li := ("<li class=\"ml-1\">").toList ++ pfx ++ inner ++ ("</li>").toList
          listLoopCore ctx nested base f rem (acc ++ [li]) st2

/-- List block `parseListAt` (source lines 553-636): ordered-vs-unordered
from the first marker, items gathered by `listLoopCore`. -/
def parseList (ctx : Ctx) : Nat → List (List Char) → St → (List Char × List (List Char) × St)
  | 0, lines, st => ([], lines, st)
  | fuel + 1, lines, st =>
    match lines with
    | [] => ([], [], st)
    | l0 :: rest0 =>
      match matchItem l0 with
      | none => ([], rest0, st)
      | some (base, marker, _) =>
        let ordered := hasDigitDot marker
        let (items, rem, st2) :=
          listLoopCore ctx (parseList ctx fuel) base (lines.length + 1) lines [] st
        let listClass :=
          if ordered then ("list-decimal list-inside ml-4 my-2 space-y-1").toList
          else ("list-disc list-inside ml-4 my-2 space-y-1").toList
        let tag := if ordered then ("ol").toList else ("ul").toList
        let html := ('<' :: tag) ++ (" class=\"").toList ++ listClass ++ ("\">").toList
          ++ (items.foldl (· ++ ·) []) ++ ("</").toList ++ tag ++ (">").toList
        (html, rem, st2)

/-- Heading line `(\s{0,3})(#{1,6})\s+(.*)` (source line 709): returns the
level and the text after the marker whitespace. -/
def headingMatch (l : List Char) : Option (Nat × List Char) :=
  let sp := l.takeWhile jsSpace
  if 3 < sp.length then none
  else
    let r := l.drop sp.length
    let hs := r.takeWhile (· == '#')
    if hs.isEmpty || 6 < hs.length then none
    else
      let r2 := r.drop hs.length
      let sp2 := r2.takeWhile jsSpace
      if sp2.isEmpty then none else some (hs.length, r2.drop sp2.length)

/-- Does the whole list match `\s+#+\s*` (the suffix stripped from heading
text, source line 713)? -/
def tailHashMatch (l : List Char) : Bool :=
  let sp := l.takeWhile jsSpace
  if sp.isEmpty then false
  else
    let r := l.drop sp.length
    let hs := r.takeWhile (· == '#')
    if hs.isEmpty then false else (r.drop hs.length).all jsSpace

/-- Remove the leftmost suffix matching `\s+#+\s*` at line end (the
non-global `replace` of source line 713). -/
def stripTrailHashGo : List Char → List Char
  | [] => []
  | c :: rest => if tailHashMatch (c :: rest) then [] else c :: stripTrailHashGo rest

/-- Heading text derivation (source lines 711-713): trim, then strip a
trailing hash run. -/
def headingText (raw : List Char) : List Char := stripTrailHashGo (trimL raw)

/-- Tailwind heading classes (source lines 642-658). -/
def headingClass : Nat → List Char
  | 1 => ("mt-6 mb-3 scroll-m-20 text-4xl font-extrabold tracking-tight lg:text-5xl").toList
  | 2 => ("mt-6 mb-3 scroll-m-20 border-b pb-2 text-3xl font-semibold tracking-tight first:mt-0").toList
  | 3 => ("mt-4 mb-2 scroll-m-20 text-2xl font-semibold tracking-tight").toList
  | 4 => ("mt-4 mb-2 scroll-m-20 text-xl font-semibold tracking-tight").toList
  | 5 => ("mt-3 mb-2 scroll-m-20 text-lg font-semibold tracking-tight").toList
  | _ => ("mt-3 mb-2 scroll-m-20 text-base font-semibold tracking-tight text-muted-foreground").toList

/-- Horizontal rule repetition scan: skip spaces, count further rule
characters, require only whitespace at the end and at least two
repetitions beyond the first character (regex `(?:\s*\2){2,}\s*$`). -/
def hrRun (ch : Char) : Nat → List Char → Nat → Bool
  | 0, _, _ => false
  | f + 1, l, count =>
    let r := l.dropWhile jsSpace
    match r with
    | c2 :: r2 => if c2 = ch then hrRun ch f r2 (count + 1) else false
    | [] => decide (2 ≤ count)

/-- Horizontal rule line `(\s{0,3})([-*_])(?:\s*\2){2,}\s*$`
(source line 727). -/
def hrTest (l : List Char) : Bool :=
  let sp := l.takeWhile jsSpace
  if 3 < sp.length then false
  else
    match l.drop sp.length with
    | c :: r =>
      if c == '-' || c == '*' || c == '_' then hrRun c (r.length + 1) r 0 else false
    | [] => false

/-- Blockquote line test `^\s*>` (source line 734). -/
def bqTest (l : List Char) : Bool := (l.dropWhile jsSpace).head? == some '>'

/-- Strip one quote level, `replace(^\s*> ?, "")` (source line 737). -/
def bqStrip (l : List Char) : List Char :=
  let sp := l.takeWhile jsSpace
  match l.drop sp.length with
  | '>' :: ' ' :: r2 => r2
  | '>' :: r => r
  | _ => l

/-- Collect and strip a contiguous blockquote run (source lines 735-739). -/
def bqCollect : List (List Char) → (List (List Char) × List (List Char))
  | [] => ([], [])
  | l :: rest =>
    if bqTest l then
      let (qs, r) := bqCollect rest
      (bqStrip l :: qs, r)
    else ([], l :: rest)

/-- TOC directive line `^\s*\[(toc|TOC)\]\s*$` (source line 748). -/
def tocTest (l : List Char) : Bool :=
  let r := l.dropWhile jsSpace
  (leadMatch (("[toc]").toList) r || leadMatch (("[TOC]").toList) r) && (r.drop 5).all jsSpace

/-- Fenced code opener `(\s*)(x{3,})(.*)` for backticks or tildes
(source line 674): returns the fence run and the info text. -/
def fenceMatch (l : List Char) : Option (List Char × List Char) :=
  let sp := l.takeWhile jsSpace
  let r := l.drop sp.length
  match r with
  | c :: _ =>
    if c = btickC || c == '~' then
      let run := r.takeWhile (· = c)
      if decide (3 ≤ run.length) then some (run, r.drop run.length) else none
    else none
  | [] => none

/-- Collect fenced code lines until a line whose trimmed form starts with
the fence run; the closing line is consumed (source lines 680-685). -/
def fenceCollect (fence : List Char) : List (List Char) → (List (List Char) × List (List Char))
  | [] => ([], [])
  | l :: rest =>
    if leadMatch fence (trimL l) then ([], rest)
    else
      let (cs, r) := fenceCollect fence rest
      (l :: cs, r)

/-- First whitespace-delimited token of the fence info (source line 678). -/
def langOf (info : List Char) : List Char :=
  (trimL info).takeWhile (fun c => !jsSpace c)

/-- Collect indented code lines, stripping one indent level
(source lines 696-699). -/
def indentCollect : List (List Char) → (List (List Char) × List (List Char))
  | [] => ([], [])
  | l :: rest =>
    if fnContTest l then
      let (cs, r) := indentCollect rest
      (fnContStrip l :: cs, r)
    else ([], l :: rest)

/-- HTML comment block start `^\s*<!--` (source line 775). -/
def commentTest (l : List Char) : Bool :=
  leadMatch (("<!--").toList) (l.dropWhile jsSpace)

/-- Collect comment block lines through the first line containing the
closing marker (source lines 776-784). -/
def commentCollect : List (List Char) → (List (List Char) × List (List Char))
  | [] => ([], [])
  | l :: rest =>
    if containsSub (("-->").toList) l then ([l], rest)
    else
      let (cs, r) := commentCollect rest
      (l :: cs, r)

/-- Raw block HTML start `^\s*<` (source line 790). -/
def htmlLineTest (l : List Char) : Bool := (l.dropWhile jsSpace).head? == some '<'

/-- Collect raw HTML block lines while nonblank; the blank stays
(source lines 791-795). -/
def htmlCollect : List (List Char) → (List (List Char) × List (List Char))
  | [] => ([], [])
  | l :: rest =>
    if (trimL l).isEmpty then ([], l :: rest)
    else
      let (cs, r) := htmlCollect rest
      (l :: cs, r)

/-- Lazy definition-list split `(.+?)\s*:\s+(.+)` (source line 801): the
shortest nonempty term followed by optional space, a colon, at least one
space, and a nonempty definition. -/
def defSplitGo : List Char → List Char → Option (List Char × List Char)
  | _, [] => none
  | acc, c :: r =>
    let acc2 := c :: acc
    let afterSp := r.dropWhile jsSpace
    match afterSp with
    | ':' :: r2 =>
      let sp2 := r2.takeWhile jsSpace
      if !sp2.isEmpty && !(r2.drop sp2.length).isEmpty then
        some (acc2.reverse, r2.drop sp2.length)
      else defSplitGo acc2 r
    | _ => defSplitGo acc2 r

/-- Definition-list line split (source line 801). -/
def defSplit (l : List Char) : Option (List Char × List Char) := defSplitGo [] l

/-- Definition-list items, greedily consuming matching lines
(source lines 802-817). -/
def defListGo (ctx : Ctx) : List (List Char) → St → (List Char × List (List Char) × St)
  | [], st => ([], [], st)
  | l :: rest, st =>
    match defSplit l with
    | some (term, dfn) =>
      let (t1, st2) := renderInline ctx ctx.ifuel (trimL term) st
      let (d1, st3) := renderInline ctx ctx.ifuel (trimL dfn) st2
      let item := ("<dt class=\"font-medium text-xs text-muted-foreground uppercase tracking-wide\">").toList
        ++ t1 ++ ("</dt><dd class=\"ml-3 text-sm\">").toList ++ d1 ++ ("</dd>").toList
      let (tail, rem, st4) := defListGo ctx rest st3
      (item ++ tail, rem, st4)
    | none => ([], l :: rest, st)

/-- Paragraph break test (source lines 826-839): the conditions that stop
paragraph accumulation, including the two-line table lookahead. -/
def paraBreak (l : List Char) (next : Option (List Char)) : Bool :=
  (headingMatch l).isSome || hrTest l || bqTest l || (matchItem l).isSome ||
  (hasChar '|' l &&
    (match next with
     | some nl => isTableDivider nl
     | none => false)) ||
  (fenceMatch l).isSome || fnContTest l || htmlLineTest l ||
  (defSplit l).isSome || tocTest l

/-- Paragraph continuation collection (source lines 821-844): stop at a
blank line or any unit start; the stopping line is not consumed. -/
def paraCollect : List (List Char) → (List (List Char) × List (List Char))
  | [] => ([], [])
  | l :: rest =>
    if (trimL l).isEmpty then ([], l :: rest)
    else if paraBreak l rest.head? then ([], l :: rest)
    else
      let (ps, r) := paraCollect rest
      (l :: ps, r)

/-- Code block markup (source lines 688-690 and 702-704). -/
def preHtml (langClass : Option (List Char)) (code : List Char) : List Char :=
  ("<pre class=\"my-2 overflow-x-auto rounded-md bg-muted/60 p-2 text-xs font-mono\"><code").toList
    ++ (match langClass with
        | some lc => (" class=\"").toList ++ lc ++ ("\"").toList
        | none => [])
    ++ (">").toList ++ code ++ ("</code></pre>").toList

/-- Non-lookahead branches of the block dispatcher (list, comment block,
raw HTML, definition list, paragraph; source lines 766-853), with the loop
continuation `cont` taking the remaining lines, accumulated output and
state. -/
def blocksStep (ctx : Ctx)
    (cont : List (List Char) → List (List Char) → St → (List Char × St))
    (l : List Char) (rest : List (List Char)) (out : List (List Char)) (st : St) :
    (List Char × St) :=
  if (matchItem l).isSome then
    let (html, rem, st2) := parseList ctx ((l :: rest).length + 1) (l :: rest) st
    cont rem (out ++ [html]) st2
  else if commentTest l then
    let (cs, rem) := commentCollect (l :: rest)
    cont rem (out ++ [joinNl cs]) st
  else if htmlLineTest l then
    let (cs, rem) := htmlCollect (l :: rest)
    cont rem (out ++ [joinNl cs]) st
  else
    match defSplit l with
    | some _ =>
      let (items, rem, st2) := defListGo ctx (l :: rest) st
      let html := ("<dl class=\"my-2 space-y-1\">").toList ++ items ++ ("</dl>").toList
      cont rem (out ++ [html]) st2
    | none =>
      let (ps, rem) := paraCollect rest
      let paraText := trimL (joinNl (l :: ps))
      if paraText.isEmpty then cont rem out st
      else
        let (inner, st2) := renderInline ctx ctx.ifuel paraText st
        let html := ("<p class=\"my-1 text-sm leading-relaxed\">").toList ++ inner ++ ("</p>").toList
        cont rem (out ++ [html]) st2

/-- Main dispatcher loop of the block renderer (source lines 665-853); one
structural unit consumed per iteration, markup fragments joined by
newlines at the end. -/
def blocksLoop (recB : List Char → St → (List Char × St)) (ctx : Ctx) :
    Nat → List (List Char) → List (List Char) → St → (List Char × St)
  | 0, _, out, st => (joinNl out, st)
  | _ + 1, [], out, st => (joinNl out, st)
  | f + 1, l :: rest, out, st =>
    if (trimL l).isEmpty then blocksLoop recB ctx f rest out st
    else
      match fenceMatch l with
      | some (fence, info) =>
        let lang := langOf info
        let (codeLines, rem) := fenceCollect fence rest
        let langClass := if lang.isEmpty then ("").toList else ("language-").toList ++ escapeHtmlAttr lang
        let html := preHtml (some langClass) (escapeHtml (joinNl codeLines))
        blocksLoop recB ctx f rem (out ++ [html]) st
      | none =>
      if fnContTest l then
        let (cs, rem) := indentCollect (l :: rest)
        let html := preHtml none (escapeHtml (joinNl cs))
        blocksLoop recB ctx f rem (out ++ [html]) st
      else
      match headingMatch l with
      | some (level, afterHash) =>
        let textContent := headingText afterHash
        let id := slugify textContent
        let (inner, st2) := renderInline ctx ctx.ifuel textContent st
        let st3 : St := ⟨st2.nextId, st2.entries, st2.headings ++ [⟨level, textContent, id⟩]⟩
        let html := ("<h").toList ++ natDec level ++ (" id=\"").toList ++ id
          ++ ("\" class=\"").toList ++ headingClass level ++ ("\">").toList ++ inner
          ++ ("</h").toList ++ natDec level ++ (">").toList
        blocksLoop recB ctx f rest (out ++ [html]) st3
      | none =>
      if hrTest l then
        blocksLoop recB ctx f rest (out ++ [("<hr class=\"my-3 border-border/60\" />").toList]) st
      else if bqTest l then
        let (qs, rem) := bqCollect (l :: rest)
        let (inner, st2) := recB (joinNl qs) st
        let html := ("<blockquote class=\"my-2 border-l-2 border-muted-foreground/30 pl-3 text-[0.85rem] text-muted-foreground space-y-1\">").toList
          ++ inner ++ ("</blockquote>").toList
        blocksLoop recB ctx f rem (out ++ [html]) st2
      else if tocTest l then
        blocksLoop recB ctx f rest (out ++ [TOC_PLACEHOLDER]) st
      else
      match rest with
      | d :: rest2 =>
        if hasChar '|' l && isTableDivider d then
          let (html, rem, st2) := parseTable ctx l d rest2 st
          blocksLoop recB ctx f rem (out ++ [html]) st2
        else blocksStep ctx (blocksLoop recB ctx f) l rest out st
      | [] => blocksStep ctx (blocksLoop recB ctx f) l rest out st

/-- The block renderer `parseBlocks` (source lines 660-856); the fuel bounds
blockquote re-entry, the loop is fuelled by the line count. -/
def parseBlocks (ctx : Ctx) : Nat → List Char → St → (List Char × St)
  | 0, _, st => ([], st)
  | bf + 1, src, st =>
    let lines := splitNl (normalizeNl src)
    blocksLoop (parseBlocks ctx bf) ctx (lines.length + 1) lines [] st

/-- One table-of-contents entry (source lines 862-869): indentation from the
heading level, a link whose target is the attribute-escaped anchor id. -/
def tocEntryHtml (h : Heading) : List Char :=
  ("<div style=\"margin-left:").toList ++ natDec ((h.level - 1) * 12)
    ++ ("px\"><a href=\"#").toList ++ escapeHtmlAttr h.id
    ++ ("\" class=\"block text-xs text-muted-foreground hover:text-foreground\">").toList
    ++ escapeHtml h.text ++ ("</a></div>").toList

/-- The link target of a table-of-contents entry: the text inside the
`href` fragment of `tocEntryHtml` after the `#` (source lines 864-866). -/
def tocLinkTarget (h : Heading) : List Char := escapeHtmlAttr h.id

/-- Generated navigation block (source lines 861-874). -/
def tocNav (hs : List Heading) : List Char :=
  ("<nav class=\"md-toc mb-3 rounded-md border bg-muted/40 p-2 text-xs space-y-1\">").toList
    ++ (hs.map tocEntryHtml).foldl (· ++ ·) [] ++ ("</nav>").toList

/-- Footnote section items (source lines 880-886): each definition body is
run back through the block renderer, followed by a back-reference link. -/
def fnSectionItems (ctx : Ctx) (bfuel : Nat) :
    List (List Char × List Char) → St → (List Char × St)
  | [], st => ([], st)
  | (id, body) :: rest, st =>
    let fid := escapeHtmlAttr id
    let (bodyHtml, st2) := parseBlocks ctx bfuel body st
    let item := ("<li id=\"fn-").toList ++ fid ++ ("\" class=\"ml-1\">").toList ++ bodyHtml
      ++ (" <a href=\"#fnref-").toList ++ fid
      ++ ("\" class=\"footnote-backref text-primary underline-offset-2 hover:underline\">↩︎</a></li>").toList
    let (tail, st3) := fnSectionItems ctx bfuel rest st2
    (item ++ tail, st3)

/-- Footnote section markup (source lines 878-887). -/
def fnSectionHtml (items : List Char) : List Char :=
  ("<section class=\"footnotes mt-4 space-y-1 text-xs text-muted-foreground\"><hr class=\"my-2 border-border/60\" /><ol class=\"list-decimal list-inside ml-4 space-y-1\">").toList
    ++ items ++ ("</ol></section>").toList

/-- The compiler `renderMarkdown` (source lines 137-894): extract
definitions, parse blocks, resolve the TOC marker, append the footnote
section when any footnote definition exists, and restore placeholders.
All fuel is derived from the extracted definitions so that inputs with
identical extraction results compile identically. -/
def renderMarkdown (src : List Char) : List Char :=
  let d := extractDefinitions src
  let fuel := d.cleaned.length + d.footnoteDefs.foldl (fun a kv => a + kv.2.length) 0 + 64
  let ctx : Ctx := ⟨d.linkDefs, d.abbrDefs, fuel⟩
  let (html, st) := parseBlocks ctx fuel d.cleaned St.init
  let html :=
    if containsSub TOC_PLACEHOLDER html then
      replaceAllSub TOC_PLACEHOLDER (tocNav st.headings) html
    else html
  let (html, st) :=
    if d.footnoteDefs.isEmpty then (html, st)
    else
      let (items, st2) := fnSectionItems ctx fuel d.footnoteDefs st
      (html ++ '\n' :: fnSectionHtml items, st2)
  restorePlaceholders st.entries html

/-! Helper lemmas. -/

theorem normalizeNl_no_cr (l : List Char) : ('\r') ∉ normalizeNl l := by
  induction l using normalizeNl.induct with
  | case1 => simp [normalizeNl]
  | case2 rest ih => simp [normalizeNl, ih]
  | case3 rest h ih => simp [normalizeNl, ih]
  | case4 c rest h1 h2 ih =>
    simp [normalizeNl]
    exact ⟨fun hh => h2 hh.symm, ih⟩

theorem normalizeNl_id_of_no_cr (l : List Char) (h : ('\r') ∉ l) : normalizeNl l = l := by
  induction l using normalizeNl.induct with
  | case1 => rfl
  | case2 rest ih => simp at h
  | case3 rest h2 ih => simp at h
  | case4 c rest h1 h2 ih =>
    simp at h
    simp [normalizeNl, h1, h2, ih h.2]

theorem normalizeNl_idem (l : List Char) : normalizeNl (normalizeNl l) = normalizeNl l :=
  normalizeNl_id_of_no_cr _ (normalizeNl_no_cr l)

theorem hasChar_append (c : Char) (a b : List Char) :
    hasChar c (a ++ b) = (hasChar c a || hasChar c b) := by
  induction a with
  | nil => simp [hasChar]
  | cons x rest ih => simp [hasChar, ih, Bool.or_assoc]

theorem hasChar_replChar_self (t : Char) (rep : List Char) (l : List Char)
    (hrep : hasChar t rep = false) : hasChar t (replChar t rep l) = false := by
  induction l with
  | nil => simp [replChar, hasChar]
  | cons c rest ih =>
    by_cases hc : c = t
    · simp [replChar, hc, hasChar_append, hrep, ih]
    · simp [replChar, hc, hasChar_append, hasChar, ih]

theorem hasChar_replChar_pres (u t : Char) (rep : List Char) (l : List Char)
    (hl : hasChar u l = false) (hrep : hasChar u rep = false) :
    hasChar u (replChar t rep l) = false := by
  induction l with
  | nil => simp [replChar, hasChar]
  | cons c rest ih =>
    simp [hasChar] at hl
    by_cases hc : c = t
    · simp [replChar, hc, hasChar_append, hrep, ih hl.2]
    · simp [replChar, hc, hasChar_append, hasChar, ih hl.2, hl.1]

theorem hasChar_false_of_not_mem {c : Char} {l : List Char} (h : c ∉ l) :
    hasChar c l = false := by
  induction l with
  | nil => simp [hasChar]
  | cons x rest ih =>
    simp at h
    simp [hasChar, ih h.2]
    exact fun hx => h.1 (by simpa using hx.symm)

theorem not_mem_of_hasChar_false {c : Char} {l : List Char} (h : hasChar c l = false) :
    c ∉ l := by
  induction l with
  | nil => simp
  | cons x rest ih =>
    simp [hasChar] at h
    simp
    exact ⟨fun hx => h.1 hx.symm, ih h.2⟩

theorem replChar_id_of_not_mem (t : Char) (rep : List Char) (l : List Char)
    (h : t ∉ l) : replChar t rep l = l := by
  induction l with
  | nil => rfl
  | cons c rest ih =>
    simp at h
    simp [replChar, Ne.symm h.1, ih h.2]

theorem mem_collWsGo {c : Char} : ∀ (b : Bool) (l : List Char),
    c ∈ collWsGo b l → c = '-' ∨ (c ∈ l ∧ jsSpace c = false) := by
  intro b l
  induction l generalizing b with
  | nil => simp [collWsGo]
  | cons x rest ih =>
    intro hmem
    by_cases hx : jsSpace x
    · simp only [collWsGo, hx, if_true] at hmem
      rcases b with _ | _
      · simp at hmem
        rcases hmem with h1 | h2
        · exact Or.inl h1
        · rcases ih true h2 with h | ⟨hm, hs⟩
          · exact Or.inl h
          · exact Or.inr ⟨List.mem_cons_of_mem _ hm, hs⟩
      · rcases ih true hmem with h | ⟨hm, hs⟩
        · exact Or.inl h
        · exact Or.inr ⟨List.mem_cons_of_mem _ hm, hs⟩
    · simp only [collWsGo, hx, if_false] at hmem
      rcases List.mem_cons.mp hmem with h1 | h2
      · subst h1
        exact Or.inr ⟨List.mem_cons_self _ _, by simpa using hx⟩
      · rcases ih false h2 with h | ⟨hm, hs⟩
        · exact Or.inl h
        · exact Or.inr ⟨List.mem_cons_of_mem _ hm, hs⟩

theorem mem_collDashGo {c : Char} : ∀ (b : Bool) (l : List Char),
    c ∈ collDashGo b l → c = '-' ∨ c ∈ l := by
  intro b l
  induction l generalizing b with
  | nil => simp [collDashGo]
  | cons x rest ih =>
    intro hmem
    by_cases hx : x = '-'
    · simp only [collDashGo, hx, if_true] at hmem
      rcases b with _ | _
      · simp at hmem
        rcases hmem with h1 | h2
        · exact Or.inl h1
        · rcases ih true h2 with h | hm
          · exact Or.inl h
          · exact Or.inr (List.mem_cons_of_mem _ hm)
      · rcases ih true hmem with h | hm
        · exact Or.inl h
        · exact Or.inr (List.mem_cons_of_mem _ hm)
    · simp only [collDashGo, hx, if_false] at hmem
      rcases List.mem_cons.mp hmem with h1 | h2
      · subst h1; exact Or.inr (List.mem_cons_self _ _)
      · rcases ih false h2 with h | hm
        · exact Or.inl h
        · exact Or.inr (List.mem_cons_of_mem _ hm)

/-- Every character of a slug is a lowercase letter, a digit or a hyphen. -/
theorem slugify_chars {c : Char} {l : List Char} (h : c ∈ slugify l) :
    (isLowerAZ c || isDigitC c || c == '-') = true := by
  unfold slugify at h
  rcases mem_collDashGo _ _ h with h1 | h2
  · subst h1; decide
  · rcases mem_collWsGo _ _ h2 with h3 | ⟨hm, hs⟩
    · subst h3; decide
    · rcases List.mem_filter.mp hm with ⟨_, hp⟩
      simp [allowedSlugChar, hs] at hp
      rcases hp with h | h <;> simp [h]

theorem slugify_no_char (bad : Char) (hbad : (isLowerAZ bad || isDigitC bad || bad == '-') = false)
    (l : List Char) : bad ∉ slugify l := by
  intro hmem
  have := slugify_chars hmem
  rw [this] at hbad
  exact Bool.noConfusion hbad

/-- Attribute escaping is the identity on slugs. -/
theorem escapeHtmlAttr_slugify (l : List Char) : escapeHtmlAttr (slugify l) = slugify l := by
  unfold escapeHtmlAttr escapeHtml
  rw [replChar_id_of_not_mem _ _ _ (slugify_no_char '&' (by decide) l)]
  rw [replChar_id_of_not_mem _ _ _ (slugify_no_char '<' (by decide) l)]
  rw [replChar_id_of_not_mem _ _ _ (slugify_no_char '>' (by decide) l)]
  rw [replChar_id_of_not_mem _ _ _ (slugify_no_char quoteC (by decide) l)]

/-- Decimal value of a digit list. -/
def natVal (l : List Char) : Nat := l.foldl (fun a c => 10 * a + (c.toNat - 48)) 0

theorem digitChar_toNat (d : Nat) (h : d < 10) : (digitChar d).toNat = 48 + d := by
  interval_cases d <;> decide

theorem natVal_append (xs : List Char) (c : Char) :
    natVal (xs ++ [c]) = 10 * natVal xs + (c.toNat - 48) := by
  unfold natVal
  rw [List.foldl_append]
  rfl

theorem natVal_natDecGo : ∀ (f n : Nat), n < f → natVal (natDecGo f n) = n := by
  intro f
  induction f with
  | zero => intro n h; omega
  | succ f ih =>
    intro n h
    by_cases h10 : n < 10
    · simp [natDecGo, h10, natVal, digitChar_toNat n h10]
    · have hn : 0 < n := by omega
      have hdiv : n / 10 < n := Nat.div_lt_self hn (by omega)
      have hf : n / 10 < f := by omega
      simp only [natDecGo, h10, if_false]
      rw [natVal_append, ih _ hf, digitChar_toNat (n % 10) (Nat.mod_lt _ (by omega))]
      omega

theorem natDec_val (n : Nat) : natVal (natDec n) = n :=
  natVal_natDecGo (n + 1) n (Nat.lt_succ_self n)

theorem natDec_inj {m n : Nat} (h : natDec m = natDec n) : m = n := by
  have := congrArg natVal h
  rwa [natDec_val, natDec_val] at this

theorem keyOfId_inj {m n : Nat} (h : keyOfId m = keyOfId n) : m = n := by
  unfold keyOfId at h
  have h2 : natDec m ++ [phR] = natDec n ++ [phR] := by
    injection h
  exact natDec_inj (List.append_cancel_right h2)

theorem head_ne_of_hasChar_false {c : Char} {l : List Char} (h : hasChar c l = false) :
    l.head? ≠ some c := by
  intro hh
  cases l with
  | nil => simp at hh
  | cons x rest =>
    simp at hh
    subst hh
    simp [hasChar] at h

theorem mem_of_getLastQ : ∀ (l : List Char) (c : Char), l.getLast? = some c → c ∈ l
  | [], _ => by simp
  | [x], c => by
    intro h
    simp [List.getLast?] at h
    simp [h]
  | x :: y :: rest, c => by
    intro h
    rw [List.getLast?_cons_cons] at h
    exact List.mem_cons_of_mem _ (mem_of_getLastQ (y :: rest) c h)

theorem getLast_ne_of_hasChar_false {c : Char} {l : List Char} (h : hasChar c l = false) :
    l.getLast? ≠ some c := by
  intro hh
  exact (not_mem_of_hasChar_false h) (mem_of_getLastQ l c hh)

/-! Claim theorems. -/

set_option maxRecDepth 1000000

/-- C1 counterexample: the claim that literal `<`, `>`, `&` never appear
unescaped in non-passthrough output is false.  The plain-text input
`1 < 2` matches no inline rule, so the compiler emits the paragraph with
the raw `<` intact: the output contains the unescaped text region
`>1 < 2<` and no `&lt;` entity at all. -/
theorem C1_counterexample :
    renderMarkdown (("1 < 2").toList) =
      ("<p class=\"my-1 text-sm leading-relaxed\">1 < 2</p>").toList ∧
    containsSub ((">1 < 2<").toList) (renderMarkdown (("1 < 2").toList)) = true ∧
    containsSub (("&lt;").toList) (renderMarkdown (("1 < 2").toList)) = false := by
  refine ⟨by decide, by decide, by decide⟩

/-- C1 (amended): text that reaches `escapeHtml` — the content captured by
inline rules and code blocks — never contains a raw `<` or `>` afterwards
(and a literal `<` inside a code span indeed comes out as `&lt;`); but
plain text matched by no rule is emitted verbatim, so literal `<`, `>`,
`&` can appear unescaped in output text regions. -/
theorem C1_amended :
    (∀ l : List Char,
      hasChar '<' (escapeHtml l) = false ∧ hasChar '>' (escapeHtml l) = false) ∧
    containsSub (("&lt;b").toList) (renderMarkdown (("`a<b`").toList)) = true := by
  constructor
  · intro l
    constructor
    · unfold escapeHtml
      exact hasChar_replChar_pres _ _ _ _
        (hasChar_replChar_self _ _ _ (by decide)) (by decide)
    · unfold escapeHtml
      exact hasChar_replChar_self _ _ _ (by decide)
  · decide

/-- C2 counterexample: a document consisting of one footnote definition and
no reference still gets a footnote section appended — the compiler tests
only whether the definition table is nonempty (source line 877), not
whether any id was referenced. -/
theorem C2_counterexample :
    renderMarkdown (("[^1]: Note.").toList) =
      ("\n<section class=\"footnotes mt-4 space-y-1 text-xs text-muted-foreground\"><hr class=\"my-2 border-border/60\" /><ol class=\"list-decimal list-inside ml-4 space-y-1\"><li id=\"fn-1\" class=\"ml-1\"><p class=\"my-1 text-sm leading-relaxed\">Note.</p> <a href=\"#fnref-1\" class=\"footnote-backref text-primary underline-offset-2 hover:underline\">↩︎</a></li></ol></section>").toList ∧
    containsSub (("class=\"footnotes").toList) (renderMarkdown (("[^1]: Note.").toList)) = true := by
  refine ⟨by decide, by decide⟩

/-- C2 (amended): the footnote section is appended if and only if the
extracted definition table is nonempty, regardless of references: an
unreferenced definition produces a section, while a dangling reference
without definition, or a document with no footnotes, produces none. -/
theorem C2_amended :
    containsSub (("class=\"footnotes").toList) (renderMarkdown (("[^1]: Note.").toList)) = true ∧
    containsSub (("class=\"footnotes").toList) (renderMarkdown (("x[^1]").toList)) = false ∧
    containsSub (("class=\"footnotes").toList) (renderMarkdown (("hello").toList)) = false := by
  refine ⟨by decide, by decide, by decide⟩

/-- C3 counterexample: placeholder keys can collide with user input.  The
author text U+E000 `0` U+E001 equals the key allocated for the code span
in the same paragraph, so the final substitution pass also replaces the
author's characters: the output repeats the code fragment twice although
the input contains a single code span. -/
theorem C3_counterexample :
    renderMarkdown ([phL, '0', phR, btickC, 'x', btickC]) =
      ("<p class=\"my-1 text-sm leading-relaxed\"><code class=\"rounded bg-muted px-1 py-0.5 text-[0.8em] font-mono\">x</code><code class=\"rounded bg-muted px-1 py-0.5 text-[0.8em] font-mono\">x</code></p>").toList ∧
    countSub (("<code").toList) (renderMarkdown ([phL, '0', phR, btickC, 'x', btickC])) = 2 := by
  refine ⟨by decide, by decide⟩

/-- C3 (amended): within one compile call distinct placeholder ids always
produce distinct keys (U+E000, decimal id, U+E001), so the compiler's own
fragments never collide with each other; but the keys are not guaranteed
absent from user input — input containing the sentinel pattern is mistaken
for a key and substituted. -/
theorem C3_amended : ∀ m n : Nat, m ≠ n → keyOfId m ≠ keyOfId n :=
  fun _ _ h hk => h (keyOfId_inj hk)

/-- Witness for C3 (amended) at concrete ids 0 and 1. -/
theorem C3_amended_witness : keyOfId 0 ≠ keyOfId 1 :=
  C3_amended 0 1 (by decide)

/-- C4 counterexample: a body row shorter than the header is not padded
with empty trailing cells — the header has two cells but the emitted body
row has a single `<td>` and no empty cell. -/
theorem C4_counterexample :
    (splitRow (("| a | b |").toList)).length = 2 ∧
    countSub (("<td").toList) (renderMarkdown (("| a | b |\n| --- | --- |\n| x |").toList)) = 1 ∧
    containsSub (("align-top\"></td>").toList)
      (renderMarkdown (("| a | b |\n| --- | --- |\n| x |").toList)) = false := by
  refine ⟨by decide, by decide, by decide⟩

/-- C4 (amended): a body row with fewer cells than the header is rendered
with exactly its own cells (no padding, no error): the two-cell header
produces two `<th>` cells and the one-cell row one `<td>` cell. -/
theorem C4_amended :
    renderMarkdown (("| a | b |\n| --- | --- |\n| x |").toList) =
      ("<table class=\"my-3 w-full border-collapse overflow-hidden rounded-md border border-border/60 text-xs\"><thead class=\"bg-muted/40\"><tr><th class=\"border-b border-border/60 px-2 py-1 text-left text-[0.75rem] font-medium text-muted-foreground\">a</th><th class=\"border-b border-border/60 px-2 py-1 text-left text-[0.75rem] font-medium text-muted-foreground\">b</th></tr></thead><tbody><tr><td class=\"border-b border-border/40 px-2 py-1 align-top\">x</td></tr></tbody></table>").toList ∧
    countSub (("<td").toList) (renderMarkdown (("| a | b |\n| --- | --- |\n| x |").toList)) = 1 ∧
    countSub (("<th ").toList) (renderMarkdown (("| a | b |\n| --- | --- |\n| x |").toList)) = 2 := by
  refine ⟨by decide, by decide, by decide⟩

/-- C5: definitions are extracted in a single line pass before block
parsing, so a reference-style link used before its definition line resolves
identically to one used after it, and the dangling use resolves to the
definition's url. -/
theorem C5_forward_reference :
    renderMarkdown (("[a][l]\n\n[l]: http://x").toList) =
      renderMarkdown (("[l]: http://x\n\n[a][l]").toList) ∧
    renderMarkdown (("[a][l]\n\n[l]: http://x").toList) =
      ("<p class=\"my-1 text-sm leading-relaxed\"><a href=\"http://x\" target=\"_blank\" rel=\"noreferrer\" class=\"text-primary underline-offset-2 hover:underline\">a</a></p>").toList ∧
    containsSub (("href=\"http://x\"").toList)
      (renderMarkdown (("[a][l]\n\n[l]: http://x").toList)) = true := by
  refine ⟨by decide, by decide, by decide⟩

/-- C6: the divider `| :--- | :---: | ---: |` yields column alignments
left, center, right in order; a divider cell containing no colon yields no
alignment. -/
theorem C6_table_alignment :
    ((splitRow (("| :--- | :---: | ---: |").toList)).map alignOfCell =
      [("left").toList, ("center").toList, ("right").toList]) ∧
    isTableDivider (("| :--- | :---: | ---: |").toList) = true ∧
    (∀ cell : List Char, hasChar ':' cell = false → alignOfCell cell = []) := by
  refine ⟨by decide, by decide, ?_⟩
  intro cell h
  have h1 : cell.head? ≠ some ':' := head_ne_of_hasChar_false h
  have h2 : cell.getLast? ≠ some ':' := getLast_ne_of_hasChar_false h
  simp [alignOfCell, h1, h2]

/-- Witness for C6 at the concrete colonless divider cell `---`. -/
theorem C6_table_alignment_witness : alignOfCell (("---").toList) = [] :=
  C6_table_alignment.2.2 (("---").toList) (by decide)

/-- C7: with bold markers inside a code span, the code-span rule protects
its content before the emphasis rules run: the output is the literal
`**bold**` inside a code fragment and no `<strong>` is emitted. -/
theorem C7_code_span_precedence :
    renderMarkdown (("`**bold**`").toList) =
      ("<p class=\"my-1 text-sm leading-relaxed\"><code class=\"rounded bg-muted px-1 py-0.5 text-[0.8em] font-mono\">**bold**</code></p>").toList ∧
    containsSub (("<strong").toList) (renderMarkdown (("`**bold**`").toList)) = false ∧
    containsSub (("**bold**").toList) (renderMarkdown (("`**bold**`").toList)) = true := by
  refine ⟨by decide, by decide, by decide⟩

/-- C8 counterexample: an undefined reference is not always left as the
literal source text — the dangling reference `[*text*][missing]` is left
alone by the reference-link rule, but the later italic rule still rewrites
the emphasis inside it, so the output differs from the literal input. -/
theorem C8_counterexample :
    renderMarkdown (("[*text*][missing]").toList) =
      ("<p class=\"my-1 text-sm leading-relaxed\">[<em class=\"italic\">text</em>][missing]</p>").toList ∧
    containsSub (("[*text*][missing]").toList)
      (renderMarkdown (("[*text*][missing]").toList)) = false ∧
    containsSub (("<em").toList) (renderMarkdown (("[*text*][missing]").toList)) = true := by
  refine ⟨by decide, by decide, by decide⟩

/-- C8 (amended): the reference-link rule consumes an undefined reference
unchanged and raises no error, but the text stays subject to the later
inline rules; when it matches none of them — as in the specification's own
example `[text][missing]` — it renders as the unchanged literal text. -/
theorem C8_amended :
    renderMarkdown (("[text][missing]").toList) =
      ("<p class=\"my-1 text-sm leading-relaxed\">[text][missing]</p>").toList := by
  decide

/-- C9: for every heading, the table-of-contents link target equals the
heading's anchor id (attribute escaping is the identity on slugs), and the
anchor id is the pure function `slugify` of the heading text; demonstrated
in the full pipeline by the `[toc]` document whose entry links to
`#hello-world`, the id of the generated heading element. -/
theorem C9_toc_anchor_roundtrip :
    (∀ (lvl : Nat) (t : List Char), tocLinkTarget ⟨lvl, t, slugify t⟩ = slugify t) ∧
    containsSub (("href=\"#hello-world\"").toList)
      (renderMarkdown (("[toc]\n\n# Hello World").toList)) = true ∧
    containsSub (("<h1 id=\"hello-world\"").toList)
      (renderMarkdown (("[toc]\n\n# Hello World").toList)) = true := by
  refine ⟨?_, by decide, by decide⟩
  intro lvl t
  unfold tocLinkTarget
  exact escapeHtmlAttr_slugify t

/-- C10: compile is invariant under line-ending normalization — replacing
every CRLF or lone CR by LF leaves the output unchanged, because the
definition extractor normalizes the input before anything else reads it
and normalization is idempotent. -/
theorem C10_line_ending_invariance (src : List Char) :
    renderMarkdown (normalizeNl src) = renderMarkdown src := by
  have h : extractDefinitions (normalizeNl src) = extractDefinitions src := by
    unfold extractDefinitions
    rw [normalizeNl_idem]
  unfold renderMarkdown
  rw [h]

end MDF
